import Mathlib

/-!
Verification of the reminder-app core: the Reminder entity, the versioned
storage layer, and the collection manager, embedded shallowly from the
JavaScript source. Conventions of the embedding:

* Temporal.PlainDateTime values are modelled by the DateTime structure below;
  an ISO date-time string is identified with the DateTime it denotes, so the
  serialization of a date field keeps the DateTime value (Temporal round-trips
  toString/from exactly).
* Nondeterminism (generated ids, the current clock) is passed explicitly as
  arguments (freshId, gen, now).
* JavaScript exceptions are modelled with Except String; a thrown-and-caught
  error becomes a returned value exactly where the source catches it.
* localStorage is modelled by the Store structure: an availability flag and
  the value stored under the single storage key of the instance, kept as its
  JSON parse tree (StoredVal) rather than raw text.
-/

/-- Calendar date-time without zone, modelling Temporal.PlainDateTime
(to second precision, which is all the source manipulates). -/
structure DateTime where
  year : Int
  month : Int
  day : Int
  hour : Int
  minute : Int
  second : Int
deriving DecidableEq

/-- Days since 1970-01-01 of a civil date (standard civil-from-days inverse,
used to give DateTime differences their exact calendar meaning). -/
def daysFromCivil (y m d : Int) : Int :=
  let y1 := if m ≤ 2 then y - 1 else y
  let era := (if 0 ≤ y1 then y1 else y1 - 399) / 400
  let yoe := y1 - era * 400
  let mp := (m + 9) % 12
  let doy := (153 * mp + 2) / 5 + d - 1
  let doe := yoe * 365 + yoe / 4 - yoe / 100 + doy
  era * 146097 + doe - 719468

/-- Seconds since the epoch of a DateTime. -/
def dtToSecs (t : DateTime) : Int :=
  daysFromCivil t.year t.month t.day * 86400 + t.hour * 3600 + t.minute * 60 + t.second

/-- Temporal.PlainDateTime.compare: lexicographic by field, returning -1, 0 or 1. -/
def dtCompare (a b : DateTime) : Int :=
  if dtToSecs a < dtToSecs b then -1 else if dtToSecs b < dtToSecs a then 1 else 0

/-- The whitespace test of String.prototype.trim (the characters the source
data can contain). -/
def isWhitespaceB (c : Char) : Bool :=
  c == ' ' || c == '\t' || c == '\n' || c == '\r'

/-- String.prototype.trim over the character list: strip leading and
trailing whitespace. -/
def trimStr (s : String) : String :=
  ⟨((s.data.dropWhile isWhitespaceB).reverse.dropWhile isWhitespaceB).reverse⟩

/-- The validPriorities list of the Reminder constructor. -/
def validPriorities : List String := ["low", "medium", "high"]

/-- The Reminder entity: the fields assigned by the constructor in index.js. -/
structure Reminder where
  id : String
  title : String
  description : String
  dueDate : Option DateTime
  priority : String
  category : String
  isCompleted : Bool
  createdAt : DateTime
  completedAt : Option DateTime
deriving DecidableEq

/-- The Reminder constructor. Throws on empty or blank title (for a string
argument the check !title || title.trim() === '' collapses to blank trim) and
on a priority outside validPriorities. The generated id and the clock are
passed in as freshId and now. -/
def mkReminder (title description : String) (dueDate : Option DateTime)
    (priority category : String) (freshId : String) (now : DateTime) :
    Except String Reminder :=
  if trimStr title = "" then .error "Title is required"
  else if ¬ (validPriorities.contains priority) then .error "Invalid priority level"
  else .ok {
    id := freshId
    title := title
    description := description
    dueDate := dueDate
    priority := priority
    category := category
    isCompleted := false
    createdAt := now
    completedAt := none }

/-- Reminder.markComplete: with no argument (none) toggles isCompleted, with
an explicit boolean sets it; completedAt is set to now when complete and
cleared when incomplete. -/
def Reminder.markComplete (r : Reminder) (completed : Option Bool) (now : DateTime) : Reminder :=
  let c := match completed with
    | none => !r.isCompleted
    | some b => b
  { r with isCompleted := c, completedAt := if c then some now else none }

/-- The serialized record shape produced by toJSON and consumed by fromJSON
and the storage layer. Every field is Option-valued because stored or
imported records may miss fields (undefined in the source); date strings are
identified with the DateTime they denote. A missing isCompleted is read back
as false by every operation of the source, so it is carried as such. -/
structure ReminderRecord where
  id : Option String
  title : Option String
  description : Option String
  dueDate : Option DateTime
  priority : Option String
  category : Option String
  isCompleted : Option Bool
  createdAt : Option DateTime
  completedAt : Option DateTime
deriving DecidableEq

/-- Reminder.toJSON: every field serialized, null dates kept as null. -/
def Reminder.toJSON (r : Reminder) : ReminderRecord :=
  { id := some r.id
    title := some r.title
    description := some r.description
    dueDate := r.dueDate
    priority := some r.priority
    category := some r.category
    isCompleted := some r.isCompleted
    createdAt := some r.createdAt
    completedAt := r.completedAt }

/-- Reminder.fromJSON: runs the constructor on title, description, priority
and category (missing description, priority and category fall to the
constructor defaults; a missing title fails the title check), then overwrites
id, dueDate, isCompleted, createdAt and completedAt from the record. A
missing createdAt makes PlainDateTime.from throw. -/
def Reminder.fromJSON (json : ReminderRecord) : Except String Reminder :=
  let title := json.title.getD ""
  let description := json.description.getD ""
  let priority := json.priority.getD "medium"
  let category := json.category.getD "general"
  if trimStr title = "" then .error "Title is required"
  else if ¬ (validPriorities.contains priority) then .error "Invalid priority level"
  else
    match json.createdAt with
    | none => .error "Invalid createdAt"
    | some created => .ok {
        id := json.id.getD ""
        title := title
        description := description
        dueDate := json.dueDate
        priority := priority
        category := category
        isCompleted := json.isCompleted.getD false
        createdAt := created
        completedAt := json.completedAt }

/-- One entry of the properties object handed to Reminder.update; the source
iterates Object.entries in order, skipping unrecognized keys (the other
constructor). -/
inductive UpdateField where
  | title (v : String)
  | description (v : String)
  | dueDate (v : Option DateTime)
  | priority (v : String)
  | category (v : String)
  | other
deriving DecidableEq

/-- Reminder.update: applies the recognized entries in order, in place.
Validation happens per entry as it is reached; a failing entry throws,
leaving the entries already processed applied on the entity. The result is
the entity state after the call together with the thrown message, if any. -/
def Reminder.update (r : Reminder) : List UpdateField → Reminder × Option String
  | [] => (r, none)
  | f :: fs =>
    match f with
    | .title v =>
      if trimStr v = "" then (r, some "Title is required")
      else Reminder.update { r with title := v } fs
    | .description v => Reminder.update { r with description := v } fs
    | .dueDate v => Reminder.update { r with dueDate := v } fs
    | .priority v =>
      if ¬ (validPriorities.contains v) then (r, some "Invalid priority level")
      else Reminder.update { r with priority := v } fs
    | .category v => Reminder.update { r with category := v } fs
    | .other => Reminder.update r fs

/-- Reminder.clone: constructs a fresh entity from the same field values
(new id, fresh createdAt) and then copies isCompleted, createdAt and
completedAt over. -/
def Reminder.clone (r : Reminder) (freshId : String) (now : DateTime) :
    Except String Reminder := do
  let c ← mkReminder r.title r.description r.dueDate r.priority r.category freshId now
  pure { c with isCompleted := r.isCompleted, createdAt := r.createdAt,
                completedAt := r.completedAt }

/-- Reminder.timeUntilDue: dueDate.since(now) as a signed number of seconds,
null without a due date. -/
def Reminder.timeUntilDue (r : Reminder) (now : DateTime) : Option Int :=
  match r.dueDate with
  | none => none
  | some d => some (dtToSecs d - dtToSecs now)

/-- Reminder.timeUntilDueFormatted. The source computes
totalHours = duration.total(hours) and then only ever uses
Math.floor(totalHours) and totalDays = Math.floor(totalHours / 24); both
coincide with the floor divisions secs / 3600 and secs / 86400 (Int division
in Lean rounds toward negative infinity, as Math.floor does). -/
def Reminder.timeUntilDueFormatted (r : Reminder) (now : DateTime) : String :=
  match r.timeUntilDue now with
  | none => "No due date"
  | some secs =>
    let totalDays : Int := secs / 86400
    if secs < 0 then
      if totalDays < -1 then
        toString totalDays.natAbs ++ " days overdue"
      else
        toString (secs / 3600).natAbs ++ " hours overdue"
    else
      if 1 ≤ totalDays then
        toString totalDays ++ " days remaining"
      else
        toString (secs / 3600) ++ " hours remaining"

/-- The JSON parse tree of the raw string stored under the storage key:
either unparseable text (corrupt), a bare array of records (the legacy
format, and what the manager itself writes), or the versioned envelope
object. An envelope whose data field is missing is modelled as an envelope
with an empty list, matching parsed.data || []. -/
inductive StoredVal where
  | corrupt (raw : String)
  | bare (records : List ReminderRecord)
  | envelope (version : Int) (records : List ReminderRecord)
deriving DecidableEq

/-- The key-value store behind one storage key: whether localStorage is
available (getItem/setItem throw when it is not, which every caller in the
source catches), and the value currently stored under the key. -/
structure Store where
  avail : Bool
  val : Option StoredVal
deriving DecidableEq

/-- One element of the array handed to StorageLayer.save: either a Reminder
instance, or a plain record object, which has no toJSON method. -/
inductive SaveItem where
  | entity (r : Reminder)
  | plain (rec : ReminderRecord)
deriving DecidableEq

/-- The per-element validation of StorageLayer.save: an instance always
passes; a plain object passes when it has a truthy title whose trim is
truthy (so a missing, empty or blank title fails). -/
def saveItemValid : SaveItem → Bool
  | .entity _ => true
  | .plain rec =>
    match rec.title with
    | some t => decide (t ≠ "") && decide (trimStr t ≠ "")
    | none => false

/-- reminders.map(r => r.toJSON()): calling toJSON on a plain record object
throws a TypeError (no such method), aborting the whole map. -/
def saveItemsToJSON : List SaveItem → Option (List ReminderRecord)
  | [] => some []
  | .entity r :: rest =>
    match saveItemsToJSON rest with
    | none => none
    | some recs => some (r.toJSON :: recs)
  | .plain _ :: _ => none

/-- StorageLayer.save: returns false without writing when storage is
unavailable, when any element fails validation (the thrown error is caught),
or when serialization throws on a plain record; otherwise writes the
version-1 envelope and returns true. -/
def StorageLayer.save (items : List SaveItem) (s : Store) : Bool × Store :=
  if ¬ s.avail then (false, s)
  else if items.any (fun i => !saveItemValid i) then (false, s)
  else
    match saveItemsToJSON items with
    | none => (false, s)
    | some recs => (true, { s with val := some (.envelope 1 recs) })

/-- StorageLayer._normalizeReminderData: defaults missing fields, maps the
legacy priority value normal to medium, and falls any remaining invalid
priority back to medium. A falsy id, title, description or category (missing
or the empty string) is replaced by the default of the field; freshId stands
for the regenerated id and now for the current time used for a missing
createdAt. -/
def normalizeReminderData (item : ReminderRecord) (freshId : String) (now : DateTime) :
    ReminderRecord :=
  let p1 := match item.priority with
    | some p => if p = "normal" then "medium" else p
    | none => "medium"
  let p2 := if validPriorities.contains p1 then p1 else "medium"
  { id := some (match item.id with
      | some i => if i = "" then freshId else i
      | none => freshId)
    title := some (item.title.getD "")
    description := some (item.description.getD "")
    dueDate := item.dueDate
    priority := some p2
    category := some (match item.category with
      | some c => if c = "" then "general" else c
      | none => "general")
    isCompleted := some (item.isCompleted.getD false)
    createdAt := some (item.createdAt.getD now)
    completedAt := item.completedAt }

/-- The shared per-record loop of StorageLayer.load (envelope branch) and
StorageLayer._migrateFromLegacy: normalize, deserialize, and skip records
whose deserialization throws, continuing with the rest. The counter feeds
the id generator for records that need a regenerated id. -/
def decodeRecords (gen : Nat → String) (now : DateTime) : Nat → List ReminderRecord → List Reminder
  | _, [] => []
  | i, rec :: rest =>
    match Reminder.fromJSON (normalizeReminderData rec (gen i) now) with
    | .ok r => r :: decodeRecords gen now (i + 1) rest
    | .error _ => decodeRecords gen now (i + 1) rest

/-- StorageLayer._migrateFromLegacy. -/
def StorageLayer.migrateFromLegacy (legacyData : List ReminderRecord)
    (gen : Nat → String) (now : DateTime) : List Reminder :=
  decodeRecords gen now 0 legacyData

/-- StorageLayer.load: empty list when storage is unavailable, empty on no
value, empty on corrupt text (JSON.parse throws, caught); a bare array is
migrated from the legacy format and the migrated list saved back (as the
version-1 envelope); an envelope of any version has its data decoded
per-record. -/
def StorageLayer.load (s : Store) (gen : Nat → String) (now : DateTime) :
    List Reminder × Store :=
  if ¬ s.avail then ([], s)
  else
    match s.val with
    | none => ([], s)
    | some (.corrupt _) => ([], s)
    | some (.bare recs) =>
      let migrated := StorageLayer.migrateFromLegacy recs gen now
      let saved := StorageLayer.save (migrated.map SaveItem.entity) s
      (migrated, saved.2)
    | some (.envelope _ recs) => (decodeRecords gen now 0 recs, s)

/-- A JavaScript value appearing as an element of backup.data or as the
argument of manager.add: a Reminder instance, a plain object (carried as the
record of its relevant properties), or a non-object value. -/
inductive AddArg where
  | entity (r : Reminder)
  | obj (rec : ReminderRecord)
  | nonObject
deriving DecidableEq

/-- One element of the import loop of StorageLayer.import: an instance is
kept; an object with a truthy title is constructed directly with the
remaining fields defaulted when missing; anything else is normalized and
deserialized. A non-object makes _normalizeReminderData throw. -/
def importItemOne (item : AddArg) (freshId : String) (now : DateTime) :
    Except String Reminder :=
  match item with
  | .entity r => .ok r
  | .obj rec =>
    match rec.title with
    | some t =>
      if t = "" then Reminder.fromJSON (normalizeReminderData rec freshId now)
      else mkReminder t (rec.description.getD "") rec.dueDate
        (rec.priority.getD "medium") (rec.category.getD "general") freshId now
    | none => Reminder.fromJSON (normalizeReminderData rec freshId now)
  | .nonObject => .error "Cannot read properties of a non-object"

/-- The loop of StorageLayer.import: per-element failures are recorded as
error strings and do not abort the batch. -/
def importItems (gen : Nat → String) (now : DateTime) :
    Nat → List AddArg → List Reminder × List String
  | _, [] => ([], [])
  | i, item :: rest =>
    let tail := importItems gen now (i + 1) rest
    match importItemOne item (gen i) now with
    | .ok r => (r :: tail.1, tail.2)
    | .error msg => (tail.1, ("Failed to import item: " ++ msg) :: tail.2)

/-- The data property of the backup argument of StorageLayer.import: an
array, some present non-array (or falsy) value, or absent. -/
inductive BackupField where
  | array (items : List AddArg)
  | nonArray
  | absent
deriving DecidableEq

/-- The backup argument itself (none models a falsy argument). -/
structure BackupData where
  data : BackupField
deriving DecidableEq

/-- The value returned by StorageLayer.import. -/
structure ImportResult where
  imported : Nat
  errors : List String
deriving DecidableEq

/-- StorageLayer.import. The Except layer of the result records whether an
exception escapes to the caller; the outer catch of the source converts the
internal Invalid-backup-data-format throw into an ok result carrying the
message in the errors list. With an array, the existing reminders are
loaded, the imported ones appended, and the combined list saved. -/
def StorageLayer.importBackup (backup : Option BackupData) (gen : Nat → String)
    (now : DateTime) (s : Store) : Except String ImportResult × Store :=
  match backup with
  | none => (.ok ⟨0, ["Invalid backup data format"]⟩, s)
  | some b =>
    match b.data with
    | .nonArray => (.ok ⟨0, ["Invalid backup data format"]⟩, s)
    | .absent => (.ok ⟨0, ["Invalid backup data format"]⟩, s)
    | .array items =>
      let loaded := StorageLayer.load s gen now
      let imported := importItems gen now 0 items
      let all := loaded.1 ++ imported.1
      let saved := StorageLayer.save (all.map SaveItem.entity) loaded.2
      (.ok ⟨imported.1.length, imported.2⟩, saved.2)

/-- The ReminderManager state: its storage key and the in-memory collection. -/
structure ReminderManager where
  storageKey : String
  reminders : List Reminder
deriving DecidableEq

/-- ReminderManager.save: writes JSON.stringify(this.reminders.map(r =>
r.toJSON())) directly with localStorage.setItem, a bare array, not the
storage-layer envelope; when localStorage is unavailable the access throws
and is caught, leaving the store unchanged. -/
def ReminderManager.save (m : ReminderManager) (s : Store) : Store :=
  if s.avail then { s with val := some (.bare (m.reminders.map Reminder.toJSON)) } else s

/-- parsed.map(item => Reminder.fromJSON(item)): the first deserialization
failure throws and aborts the whole map. -/
def mapFromJSON : List ReminderRecord → Option (List Reminder)
  | [] => some []
  | rec :: rest =>
    match Reminder.fromJSON rec with
    | .error _ => none
    | .ok r =>
      match mapFromJSON rest with
      | none => none
      | some rs => some (r :: rs)

/-- ReminderManager.load: reads the raw value and maps Reminder.fromJSON
over the parsed array; any throw (unavailable storage, corrupt text, an
envelope object, which has no map method, or a failing fromJSON) is caught
and yields the empty collection. -/
def ReminderManager.load (s : Store) : List Reminder :=
  if ¬ s.avail then []
  else
    match s.val with
    | none => []
    | some (.corrupt _) => []
    | some (.envelope _ _) => []
    | some (.bare recs) =>
      match mapFromJSON recs with
      | none => []
      | some rs => rs

/-- The if/else-if chain of ReminderManager.add computing the reminder to
append: an instance is accepted as is; a plain object with a truthy title is
constructed (missing optional fields fall to the constructor defaults);
anything else throws Invalid reminder. -/
def addConstruct (arg : AddArg) (freshId : String) (now : DateTime) :
    Except String Reminder :=
  match arg with
  | .entity r => .ok r
  | .obj rec =>
    match rec.title with
    | some t =>
      if t = "" then .error "Invalid reminder"
      else mkReminder t (rec.description.getD "") rec.dueDate
        (rec.priority.getD "medium") (rec.category.getD "general") freshId now
    | none => .error "Invalid reminder"
  | .nonObject => .error "Invalid reminder"

/-- ReminderManager.add: on success the constructed entity is appended and
the collection saved; a thrown validation error propagates with nothing
changed. -/
def ReminderManager.add (m : ReminderManager) (arg : AddArg) (freshId : String)
    (now : DateTime) (s : Store) :
    Except String (Reminder × ReminderManager × Store) :=
  match addConstruct arg freshId now with
  | .error e => .error e
  | .ok reminder =>
    let m1 : ReminderManager := { m with reminders := m.reminders ++ [reminder] }
    .ok (reminder, m1, m1.save s)

/-- ReminderManager.addMultiple: adds each element in order; the first
failure propagates, keeping the manager and store state reached so far. The
result is the state after the call, the entities added, and the error if one
was thrown. -/
def ReminderManager.addMultiple (m : ReminderManager) (gen : Nat → String)
    (now : DateTime) (s : Store) :
    Nat → List AddArg → ReminderManager × Store × List Reminder × Option String
  | _, [] => (m, s, [], none)
  | i, a :: rest =>
    match m.add a (gen i) now s with
    | .error e => (m, s, [], some e)
    | .ok (r, m1, s1) =>
      let tail := m1.addMultiple gen now s1 (i + 1) rest
      (tail.1, tail.2.1, r :: tail.2.2.1, tail.2.2.2)

/-- The first entity with the given id and the list without it, as
this.reminders.splice(index, 1) does after findIndex. -/
def removeFirstById (id : String) : List Reminder → Option Reminder × List Reminder
  | [] => (none, [])
  | x :: xs =>
    if x.id = id then (some x, xs)
    else
      let tail := removeFirstById id xs
      (tail.1, x :: tail.2)

/-- ReminderManager.remove: null and no save when the id is not found,
otherwise the removed entity, with the shrunk collection saved. -/
def ReminderManager.remove (m : ReminderManager) (id : String) (s : Store) :
    Option Reminder × ReminderManager × Store :=
  let found := removeFirstById id m.reminders
  match found.1 with
  | none => (none, m, s)
  | some r =>
    let m1 : ReminderManager := { m with reminders := found.2 }
    (some r, m1, m1.save s)

/-- ReminderManager.removeCompleted: drops every completed entity, saves
once, and returns the count removed. -/
def ReminderManager.removeCompleted (m : ReminderManager) (s : Store) :
    Nat × ReminderManager × Store :=
  let completed := m.reminders.filter (fun r => r.isCompleted)
  let m1 : ReminderManager := { m with reminders := m.reminders.filter (fun r => !r.isCompleted) }
  (completed.length, m1, m1.save s)

/-- ReminderManager.clear. -/
def ReminderManager.clear (m : ReminderManager) (s : Store) : ReminderManager × Store :=
  let m1 : ReminderManager := { m with reminders := [] }
  (m1, m1.save s)

/-- ReminderManager.getById: the first entity with the id, or null. -/
def ReminderManager.getById (m : ReminderManager) (id : String) : Option Reminder :=
  m.reminders.find? (fun r => r.id = id)

/-- The in-place mutation of the entity found by getById, reflected in the
collection: the first entity with the id is replaced. -/
def replaceFirstById (id : String) (r : Reminder) : List Reminder → List Reminder
  | [] => []
  | x :: xs => if x.id = id then r :: xs else x :: replaceFirstById id r xs

/-- ReminderManager.update: null if the id is not found; otherwise delegates
to Reminder.update on the found entity (mutating it in place, also when the
update throws part-way) and saves only when no error was thrown, in which
case the updated entity is returned. The thrown message, if any, propagates
as the last component. -/
def ReminderManager.update (m : ReminderManager) (id : String) (fs : List UpdateField)
    (s : Store) : Option Reminder × ReminderManager × Store × Option String :=
  match m.getById id with
  | none => (none, m, s, none)
  | some r =>
    let updated := Reminder.update r fs
    let m1 : ReminderManager := { m with reminders := replaceFirstById id updated.1 m.reminders }
    match updated.2 with
    | some e => (none, m1, s, some e)
    | none => (some updated.1, m1, m1.save s, none)

/-- String.prototype.toLowerCase, modelled character by character. -/
def toLowerStr (s : String) : String :=
  ⟨s.data.map Char.toLower⟩

/-- Whether the second list occurs at the start of the first. -/
def startsWithB : List Char → List Char → Bool
  | _, [] => true
  | [], _ :: _ => false
  | a :: as, b :: bs => a == b && startsWithB as bs

/-- String.prototype.includes over character lists: the needle occurs at
some position of the haystack. -/
def containsSub (needle : List Char) : List Char → Bool
  | [] => startsWithB [] needle
  | c :: rest => startsWithB (c :: rest) needle || containsSub needle rest

/-- hay.includes(needle). -/
def strIncludes (hay needle : String) : Bool :=
  containsSub needle.data hay.data

/-- ReminderManager.search: an empty (falsy) query returns the empty list;
otherwise a case-insensitive substring match of the query against title or
description. -/
def ReminderManager.search (m : ReminderManager) (query : String) : List Reminder :=
  if query = "" then []
  else
    let searchTerm := toLowerStr query
    m.reminders.filter fun r =>
      strIncludes (toLowerStr r.title) searchTerm ||
      strIncludes (toLowerStr r.description) searchTerm

/-- ReminderManager.import: JSON.parse of the argument followed by a map of
Reminder.fromJSON; the parsed argument is modelled by its parse tree (none
when parsing throws or the value has no map method). Decoded entities are
appended and saved; any throw is caught and yields 0 with nothing changed. -/
def ReminderManager.importJSON (m : ReminderManager) (parsed : Option (List ReminderRecord))
    (s : Store) : Nat × ReminderManager × Store :=
  match parsed with
  | none => (0, m, s)
  | some recs =>
    match mapFromJSON recs with
    | none => (0, m, s)
    | some rs =>
      let m1 : ReminderManager := { m with reminders := m.reminders ++ rs }
      (rs.length, m1, m1.save s)

/-- The priorityOrder map of sortBy: high 3, medium 2, low 1. An entity with
any other priority string is unreachable through the validated operations;
its lookup is modelled as 0. -/
def priorityOrder : String → Int
  | "high" => 3
  | "medium" => 2
  | "low" => 1
  | _ => 0

/-- The field argument of sortBy, for the four comparators the source names
(the default dynamic-property case is not exercised by the verified
properties). -/
inductive SortField where
  | title
  | dueDate
  | priority
  | createdAt
deriving DecidableEq

/-- The comparator closure of sortBy. The dueDate, priority and createdAt
branches return directly from the switch, ignoring the order argument; only
the title branch consults it. The priority branch returns bValue - aValue,
most urgent first. -/
def sortCmp (field : SortField) (order : String) (a b : Reminder) : Int :=
  match field with
  | .title =>
    let av := toLowerStr a.title
    let bv := toLowerStr b.title
    if av < bv then (if order = "asc" then -1 else 1)
    else if bv < av then (if order = "asc" then 1 else -1)
    else 0
  | .dueDate =>
    match a.dueDate, b.dueDate with
    | none, none => 0
    | none, some _ => 1
    | some _, none => -1
    | some x, some y => dtCompare x y
  | .priority => priorityOrder b.priority - priorityOrder a.priority
  | .createdAt => dtCompare a.createdAt b.createdAt

/-- Insertion of one element into a list already sorted by the comparator,
keeping equal elements in their original relative order as the stable
Array.prototype.sort does. -/
def orderedInsertCmp (cmp : Reminder → Reminder → Int) (a : Reminder) :
    List Reminder → List Reminder
  | [] => [a]
  | b :: l => if cmp a b ≤ 0 then a :: b :: l else b :: orderedInsertCmp cmp a l

/-- A stable comparator sort, modelling [...this.reminders].sort(comparator). -/
def sortWithCmp (cmp : Reminder → Reminder → Int) : List Reminder → List Reminder
  | [] => []
  | a :: l => orderedInsertCmp cmp a (sortWithCmp cmp l)

/-- ReminderManager.sortBy: sorts a copy of the collection and returns it;
the manager state is not part of the result, reflecting that the stored
order is untouched. -/
def ReminderManager.sortBy (m : ReminderManager) (field : SortField) (order : String) :
    List Reminder :=
  sortWithCmp (sortCmp field order) m.reminders

/-- The invariant claimed for the entity: completedAt is non-null exactly
when isCompleted is true. -/
def CompletionInv (r : Reminder) : Prop :=
  r.completedAt ≠ none ↔ r.isCompleted = true

/-- The backup arguments whose data property is not an array (or absent, or
the argument itself falsy). -/
def noArrayDataB : Option BackupData → Bool
  | none => true
  | some b =>
    match b.data with
    | .array _ => false
    | .nonArray => true
    | .absent => true

/-- A complete legacy entity record: every field of the serialized entity
shape present, with a non-blank title, a priority among the three enum
values, and non-empty id and category (the degenerate empty strings are
falsy in the source and would be replaced by normalization defaults). -/
def completeRecB (rec : ReminderRecord) : Bool :=
  (match rec.id with | some i => decide (i ≠ "") | none => false) &&
  (match rec.title with | some t => decide (trimStr t ≠ "") | none => false) &&
  rec.description.isSome &&
  (match rec.priority with | some p => validPriorities.contains p | none => false) &&
  (match rec.category with | some c => decide (c ≠ "") | none => false) &&
  rec.isCompleted.isSome &&
  rec.createdAt.isSome

/-- The persistence invariant the manager actually maintains: the stored
value under the key is the bare serialized array of the in-memory entities. -/
def SyncedBare (m : ReminderManager) (s : Store) : Prop :=
  s.val = some (.bare (m.reminders.map Reminder.toJSON))

/-- Sample date-time for the concrete instances below. -/
def dt0 : DateTime := ⟨2024, 1, 1, 10, 0, 0⟩

/-- Sample clock one day and one hour after dt0. -/
def dt1 : DateTime := ⟨2024, 1, 2, 11, 0, 0⟩

/-- Sample id generator. -/
def gen0 : Nat → String := fun _ => "fresh"

/-- An available store holding nothing. -/
def store0 : Store := ⟨true, none⟩

/-- A concrete valid entity. -/
def r3base : Reminder :=
  ⟨"rem1", "Task", "old", none, "medium", "general", false, dt0, none⟩

/-- A stored record marked completed but with a null completedAt. -/
def recC2 : ReminderRecord :=
  ⟨some "rem2", some "Task", some "", none, some "low", some "general",
   some true, some dt0, none⟩

/-- The entity recC2 deserializes to. -/
def rC2 : Reminder :=
  ⟨"rem2", "Task", "", none, "low", "general", true, dt0, none⟩

/-- A plain (non-entity) record with a valid non-empty title. -/
def recC10 : ReminderRecord :=
  ⟨some "rem3", some "Grocery run", some "milk", none, some "high", some "errands",
   some false, some dt0, none⟩

/-- A complete legacy record as stored before the envelope format. -/
def recC6 : ReminderRecord :=
  ⟨some "legacy1", some "Legacy Task", some "Old format", some dt1, some "medium",
   some "general", some false, some dt0, none⟩

/-- A concrete entity with a due date 25 hours before dt1. -/
def rDue : Reminder :=
  ⟨"rem4", "Overdue task", "", some dt0, "medium", "general", false, dt0, none⟩

/-- A concrete valid entity with a due date and the title of the search
example of the specification. -/
def rMeet : Reminder :=
  ⟨"rem5", "Meeting with team", "notes", some dt1, "high", "work", false, dt0, none⟩

/-- A store holding a legacy bare array with one complete record. -/
def storeC6 : Store := ⟨true, some (.bare [recC6])⟩

/-- An empty manager on the default key. -/
def mgr0 : ReminderManager := ⟨"reminders", []⟩

/-- A manager holding the search sample entity. -/
def mgrSearch : ReminderManager := ⟨"reminders", [rMeet]⟩

instance {ε α : Type} [DecidableEq ε] [DecidableEq α] : DecidableEq (Except ε α) := fun a b =>
  match a, b with
  | .ok x, .ok y =>
    if h : x = y then isTrue (by rw [h]) else isFalse (by simp [h])
  | .error x, .error y =>
    if h : x = y then isTrue (by rw [h]) else isFalse (by simp [h])
  | .ok _, .error _ => isFalse (by simp)
  | .error _, .ok _ => isFalse (by simp)

theorem mkReminder_ok {title description : String} {dueDate : Option DateTime}
    {priority category freshId : String} {now : DateTime} {r : Reminder}
    (h : mkReminder title description dueDate priority category freshId now = .ok r) :
    r = ⟨freshId, title, description, dueDate, priority, category, false, now, none⟩ ∧
    trimStr title ≠ "" ∧ validPriorities.contains priority = true := by
  unfold mkReminder at h
  split at h
  · cases h
  · split at h
    · cases h
    · rename_i h1 h2
      cases h
      exact ⟨rfl, h1, by simpa using h2⟩

theorem fromJSON_toJSON {r : Reminder} (ht : trimStr r.title ≠ "")
    (hp : validPriorities.contains r.priority = true) :
    Reminder.fromJSON (Reminder.toJSON r) = .ok r := by
  have hp2 : r.priority ∈ validPriorities := by simpa using hp
  simp [Reminder.fromJSON, Reminder.toJSON, ht, hp2]

/-- C5: constructing a Reminder from any valid inputs and deserializing its
serialized form yields an entity agreeing with the original on title,
description, priority, category, isCompleted and dueDate. -/
theorem c5_serialize_roundtrip (title description : String) (dueDate : Option DateTime)
    (priority category freshId : String) (now : DateTime) (r : Reminder)
    (h : mkReminder title description dueDate priority category freshId now = .ok r) :
    ∃ r2, Reminder.fromJSON (Reminder.toJSON r) = Except.ok r2 ∧
      r2.title = r.title ∧ r2.description = r.description ∧ r2.priority = r.priority ∧
      r2.category = r.category ∧ r2.isCompleted = r.isCompleted ∧
      r2.dueDate = r.dueDate := by
  obtain ⟨hr, ht, hp⟩ := mkReminder_ok h
  subst hr
  exact ⟨_, fromJSON_toJSON ht hp, rfl, rfl, rfl, rfl, rfl, rfl⟩

/-- Witness for C5 at a concrete construction. -/
theorem c5_serialize_roundtrip_witness :
    ∃ r2, Reminder.fromJSON (Reminder.toJSON rMeet) = Except.ok r2 ∧
      r2.title = rMeet.title ∧ r2.description = rMeet.description ∧
      r2.priority = rMeet.priority ∧ r2.category = rMeet.category ∧
      r2.isCompleted = rMeet.isCompleted ∧ r2.dueDate = rMeet.dueDate :=
  c5_serialize_roundtrip "Meeting with team" "notes" (some dt1) "high" "work"
    "rem5" dt0 rMeet (by decide)

theorem update_keeps_completion : ∀ (fs : List UpdateField) (r : Reminder),
    (Reminder.update r fs).1.isCompleted = r.isCompleted ∧
    (Reminder.update r fs).1.completedAt = r.completedAt := by
  intro fs
  induction fs with
  | nil => intro r; exact ⟨rfl, rfl⟩
  | cons f fs ih =>
    intro r
    cases f with
    | title v =>
      by_cases hv : trimStr v = ""
      · simp [Reminder.update, hv]
      · simpa [Reminder.update, hv] using ih { r with title := v }
    | description v => simpa [Reminder.update] using ih { r with description := v }
    | dueDate v => simpa [Reminder.update] using ih { r with dueDate := v }
    | priority v =>
      by_cases hv : v ∈ validPriorities
      · simpa [Reminder.update, hv] using ih { r with priority := v }
      · simp [Reminder.update, hv]
    | category v => simpa [Reminder.update] using ih { r with category := v }
    | other => simpa [Reminder.update] using ih r

theorem fromJSON_ok {rec : ReminderRecord} {r : Reminder}
    (h : Reminder.fromJSON rec = .ok r) :
    ∃ created, rec.createdAt = some created ∧
      r = ⟨rec.id.getD "", rec.title.getD "", rec.description.getD "", rec.dueDate,
           rec.priority.getD "medium", rec.category.getD "general",
           rec.isCompleted.getD false, created, rec.completedAt⟩ := by
  by_cases ht : trimStr (rec.title.getD "") = ""
  · simp [Reminder.fromJSON, ht] at h
  · by_cases hp : (rec.priority.getD "medium") ∈ validPriorities
    · cases hc : rec.createdAt with
      | none => simp [Reminder.fromJSON, ht, hp, hc] at h
      | some created =>
        refine ⟨created, rfl, ?_⟩
        simp [Reminder.fromJSON, ht, hp, hc] at h
        rw [← h]
    · simp [Reminder.fromJSON, ht, hp] at h

/-- Counterexample to C2: a stored record marked completed with a null
completedAt passes normalization untouched and deserializes to an entity
with isCompleted true and completedAt null, violating the claimed
invariant. -/
theorem c2_counterexample :
    Reminder.fromJSON (normalizeReminderData recC2 "fresh" dt0) = Except.ok rC2 ∧
    rC2.isCompleted = true ∧ rC2.completedAt = none := by
  refine ⟨by decide, rfl, rfl⟩

/-- C2 as amended: the completion invariant holds after construction,
markComplete, update and clone, but deserialization (and the normalization
preceding it) copies isCompleted and completedAt from the record verbatim,
so a deserialized entity satisfies the invariant only when its stored record
does. -/
theorem c2_amended :
    (∀ title description dueDate priority category freshId now r,
      mkReminder title description dueDate priority category freshId now = .ok r →
      CompletionInv r) ∧
    (∀ r c now, CompletionInv (Reminder.markComplete r c now)) ∧
    (∀ r fs, CompletionInv r → CompletionInv (Reminder.update r fs).1) ∧
    (∀ r freshId now c, Reminder.clone r freshId now = .ok c →
      CompletionInv r → CompletionInv c) ∧
    (∀ rec r, Reminder.fromJSON rec = .ok r →
      r.isCompleted = rec.isCompleted.getD false ∧ r.completedAt = rec.completedAt) ∧
    (∀ rec freshId now,
      (normalizeReminderData rec freshId now).isCompleted = some (rec.isCompleted.getD false) ∧
      (normalizeReminderData rec freshId now).completedAt = rec.completedAt) := by
  refine ⟨?_, ?_, ?_, ?_, ?_, ?_⟩
  · intro title description dueDate priority category freshId now r h
    obtain ⟨hr, -, -⟩ := mkReminder_ok h
    subst hr
    simp [CompletionInv]
  · intro r c now
    unfold Reminder.markComplete CompletionInv
    cases c with
    | none => cases hb : r.isCompleted <;> simp [hb]
    | some b => cases b <;> simp
  · intro r fs h
    unfold CompletionInv
    rw [(update_keeps_completion fs r).1, (update_keeps_completion fs r).2]
    exact h
  · intro r freshId now c h hr
    unfold Reminder.clone at h
    cases hmk : mkReminder r.title r.description r.dueDate r.priority r.category freshId now with
    | error e => rw [hmk] at h; cases h
    | ok c0 =>
      rw [hmk] at h
      injection h with h3
      subst h3
      exact hr
  · intro rec r h
    obtain ⟨created, -, hr⟩ := fromJSON_ok h
    subst hr
    exact ⟨rfl, rfl⟩
  · intro rec freshId now
    exact ⟨rfl, rfl⟩

/-- Witness for C2 as amended, at concrete inputs. -/
theorem c2_amended_witness :
    CompletionInv rMeet ∧ CompletionInv (Reminder.markComplete rMeet none dt1) ∧
    (rC2.isCompleted = (recC2.isCompleted.getD false) ∧ rC2.completedAt = recC2.completedAt) := by
  refine ⟨?_, c2_amended.2.1 rMeet none dt1, c2_amended.2.2.2.2.1 recC2 rC2 (by decide)⟩
  exact c2_amended.1 "Meeting with team" "notes" (some dt1) "high" "work" "rem5" dt0 rMeet (by decide)

/-- Counterexample to C3: an update whose second entry has a blank title
throws, yet the description entry processed first has already been applied,
so the entity is changed by the failing call. -/
theorem c3_counterexample :
    (Reminder.update r3base [UpdateField.description "x", UpdateField.title ""]).2 =
      some "Title is required" ∧
    (Reminder.update r3base [UpdateField.description "x", UpdateField.title ""]).1.description =
      "x" ∧
    (Reminder.update r3base [UpdateField.description "x", UpdateField.title ""]).1 ≠ r3base := by
  refine ⟨by decide, by decide, by decide⟩

/-- C3 as amended: when update raises a validation error, the entries before
the first invalid one (a blank title or an out-of-range priority) have been
applied and the rest have not; the update is sequential, not atomic. In
particular a call whose failing entry comes first leaves the entity
unchanged. -/
theorem c3_amended (r : Reminder) (fs : List UpdateField) (e : String)
    (h : (Reminder.update r fs).2 = some e) :
    ∃ pre bad post, fs = pre ++ bad :: post ∧
      (Reminder.update r pre).2 = none ∧
      (Reminder.update r fs).1 = (Reminder.update r pre).1 ∧
      ((∃ v, bad = UpdateField.title v ∧ trimStr v = "") ∨
       (∃ v, bad = UpdateField.priority v ∧ validPriorities.contains v = false)) := by
  induction fs generalizing r with
  | nil => simp [Reminder.update] at h
  | cons f fs ih =>
    cases f with
    | title v =>
      by_cases hv : trimStr v = ""
      · exact ⟨[], .title v, fs, rfl, rfl, by simp [Reminder.update, hv],
          .inl ⟨v, rfl, hv⟩⟩
      · have h2 : (Reminder.update { r with title := v } fs).2 = some e := by
          simpa [Reminder.update, hv] using h
        obtain ⟨pre, bad, post, hfs, hpre, hres, hbad⟩ := ih _ h2
        refine ⟨.title v :: pre, bad, post, by rw [hfs]; rfl, ?_, ?_, hbad⟩
        · simpa [Reminder.update, hv] using hpre
        · calc (Reminder.update r (UpdateField.title v :: fs)).1
              = (Reminder.update { r with title := v } fs).1 := by
                simp [Reminder.update, hv]
            _ = (Reminder.update { r with title := v } pre).1 := hres
            _ = (Reminder.update r (UpdateField.title v :: pre)).1 := by
                simp [Reminder.update, hv]
    | description v =>
      have h2 : (Reminder.update { r with description := v } fs).2 = some e := by
        simpa [Reminder.update] using h
      obtain ⟨pre, bad, post, hfs, hpre, hres, hbad⟩ := ih _ h2
      refine ⟨.description v :: pre, bad, post, by rw [hfs]; rfl, ?_, ?_, hbad⟩
      · simpa [Reminder.update] using hpre
      · calc (Reminder.update r (UpdateField.description v :: fs)).1
            = (Reminder.update { r with description := v } fs).1 := by
              simp [Reminder.update]
          _ = (Reminder.update { r with description := v } pre).1 := hres
          _ = (Reminder.update r (UpdateField.description v :: pre)).1 := by
              simp [Reminder.update]
    | dueDate v =>
      have h2 : (Reminder.update { r with dueDate := v } fs).2 = some e := by
        simpa [Reminder.update] using h
      obtain ⟨pre, bad, post, hfs, hpre, hres, hbad⟩ := ih _ h2
      refine ⟨.dueDate v :: pre, bad, post, by rw [hfs]; rfl, ?_, ?_, hbad⟩
      · simpa [Reminder.update] using hpre
      · calc (Reminder.update r (UpdateField.dueDate v :: fs)).1
            = (Reminder.update { r with dueDate := v } fs).1 := by
              simp [Reminder.update]
          _ = (Reminder.update { r with dueDate := v } pre).1 := hres
          _ = (Reminder.update r (UpdateField.dueDate v :: pre)).1 := by
              simp [Reminder.update]
    | priority v =>
      by_cases hv : v ∈ validPriorities
      · have h2 : (Reminder.update { r with priority := v } fs).2 = some e := by
          simpa [Reminder.update, hv] using h
        obtain ⟨pre, bad, post, hfs, hpre, hres, hbad⟩ := ih _ h2
        refine ⟨.priority v :: pre, bad, post, by rw [hfs]; rfl, ?_, ?_, hbad⟩
        · simpa [Reminder.update, hv] using hpre
        · calc (Reminder.update r (UpdateField.priority v :: fs)).1
              = (Reminder.update { r with priority := v } fs).1 := by
                simp [Reminder.update, hv]
            _ = (Reminder.update { r with priority := v } pre).1 := hres
            _ = (Reminder.update r (UpdateField.priority v :: pre)).1 := by
                simp [Reminder.update, hv]
      · refine ⟨[], .priority v, fs, rfl, rfl, by simp [Reminder.update, hv],
          .inr ⟨v, rfl, by simpa using hv⟩⟩
    | category v =>
      have h2 : (Reminder.update { r with category := v } fs).2 = some e := by
        simpa [Reminder.update] using h
      obtain ⟨pre, bad, post, hfs, hpre, hres, hbad⟩ := ih _ h2
      refine ⟨.category v :: pre, bad, post, by rw [hfs]; rfl, ?_, ?_, hbad⟩
      · simpa [Reminder.update] using hpre
      · calc (Reminder.update r (UpdateField.category v :: fs)).1
            = (Reminder.update { r with category := v } fs).1 := by
              simp [Reminder.update]
          _ = (Reminder.update { r with category := v } pre).1 := hres
          _ = (Reminder.update r (UpdateField.category v :: pre)).1 := by
              simp [Reminder.update]
    | other =>
      have h2 : (Reminder.update r fs).2 = some e := by
        simpa [Reminder.update] using h
      obtain ⟨pre, bad, post, hfs, hpre, hres, hbad⟩ := ih _ h2
      refine ⟨.other :: pre, bad, post, by rw [hfs]; rfl, ?_, ?_, hbad⟩
      · simpa [Reminder.update] using hpre
      · calc (Reminder.update r (UpdateField.other :: fs)).1
            = (Reminder.update r fs).1 := by simp [Reminder.update]
          _ = (Reminder.update r pre).1 := hres
          _ = (Reminder.update r (UpdateField.other :: pre)).1 := by
              simp [Reminder.update]

/-- Witness for C3 as amended at a concrete failing update. -/
theorem c3_amended_witness :
    ∃ pre bad post,
      [UpdateField.description "x", UpdateField.title ""] = pre ++ bad :: post ∧
      (Reminder.update r3base pre).2 = none ∧
      (Reminder.update r3base [UpdateField.description "x", UpdateField.title ""]).1 =
        (Reminder.update r3base pre).1 ∧
      ((∃ v, bad = UpdateField.title v ∧ trimStr v = "") ∨
       (∃ v, bad = UpdateField.priority v ∧ validPriorities.contains v = false)) :=
  c3_amended r3base [UpdateField.description "x", UpdateField.title ""]
    "Title is required" (by decide)

/-- Counterexample to C4: importing a backup whose data field is absent
returns the result value imported 0 with the message in the errors list; no
error is raised to the caller (the outcome is ok, not error). -/
theorem c4_counterexample :
    StorageLayer.importBackup (some ⟨BackupField.absent⟩) gen0 dt0 store0 =
      (Except.ok ⟨0, ["Invalid backup data format"]⟩, store0) := rfl

/-- C4 as amended: for every backup argument whose data field is not an
array (or is absent), import catches its own format error and returns
imported 0 with the message Invalid backup data format in the errors list,
leaving the store untouched; nothing is raised to the caller. -/
theorem c4_amended (backup : Option BackupData) (gen : Nat → String) (now : DateTime)
    (s : Store) (h : noArrayDataB backup = true) :
    StorageLayer.importBackup backup gen now s =
      (Except.ok ⟨0, ["Invalid backup data format"]⟩, s) := by
  cases backup with
  | none => rfl
  | some b =>
    obtain ⟨data⟩ := b
    cases data with
    | array items => rw [noArrayDataB] at h; cases h
    | nonArray => rfl
    | absent => rfl

/-- Witness for C4 as amended at a concrete non-array backup. -/
theorem c4_amended_witness :
    StorageLayer.importBackup (some ⟨BackupField.nonArray⟩) gen0 dt1 store0 =
      (Except.ok ⟨0, ["Invalid backup data format"]⟩, store0) :=
  c4_amended (some ⟨BackupField.nonArray⟩) gen0 dt1 store0 (by decide)

theorem saveItemsToJSON_plain_mem {items : List SaveItem} {rec : ReminderRecord}
    (h : SaveItem.plain rec ∈ items) : saveItemsToJSON items = none := by
  induction items with
  | nil => cases h
  | cons a rest ih =>
    cases a with
    | plain q => simp [saveItemsToJSON]
    | entity r =>
      have h2 : SaveItem.plain rec ∈ rest := by simpa using h
      simp [saveItemsToJSON, ih h2]

/-- C10: whenever the list given to StorageLayer.save contains a plain
record (which has no toJSON method), save returns false and the store is
unchanged, regardless of whether that record passes the title validation. -/
theorem c10_save_plain_record (items : List SaveItem) (s : Store) (rec : ReminderRecord)
    (h : SaveItem.plain rec ∈ items) :
    StorageLayer.save items s = (false, s) := by
  unfold StorageLayer.save
  split
  · rfl
  · split
    · rfl
    · rw [saveItemsToJSON_plain_mem h]

/-- Witness for C10: a single plain record with a valid non-empty title
passes validation yet save fails and writes nothing. -/
theorem c10_save_plain_record_witness :
    StorageLayer.save [SaveItem.plain recC10] store0 = (false, store0) ∧
    saveItemValid (SaveItem.plain recC10) = true :=
  ⟨c10_save_plain_record [SaveItem.plain recC10] store0 recC10 (by simp), by decide⟩

theorem toString_intCast_nat (m : Nat) : toString ((m : Nat) : Int) = toString m := rfl

/-- Counterexample to C8: rDue is due 25 hours before the clock dt1, a
duration between one and two days past due. Its floored absolute value in
days is 1 and it is more than one day past, so the claim predicts the string
1 days overdue; the code flooring the negative day count and then taking the
absolute value prints 2 days overdue. -/
theorem c8_counterexample :
    Reminder.timeUntilDue rDue dt1 = some (-90000) ∧
    Reminder.timeUntilDueFormatted rDue dt1 = "2 days overdue" ∧
    Reminder.timeUntilDueFormatted rDue dt1 ≠ "1 days overdue" := by
  refine ⟨by decide, by decide, by decide⟩

/-- C8 as amended: with no due date the string is No due date; for future
durations the day and hour counts are floored as claimed (days when at
least one whole day remains); for past durations the branch condition is as
claimed (days when strictly more than one day past) but the day and hour
counts are the absolute duration rounded up (ceiling), not floored. -/
theorem c8_amended (r : Reminder) (now : DateTime) :
    (r.dueDate = none → Reminder.timeUntilDueFormatted r now = "No due date") ∧
    (∀ d, r.dueDate = some d →
      (dtToSecs d - dtToSecs now < -86400 →
        Reminder.timeUntilDueFormatted r now =
          toString (((dtToSecs d - dtToSecs now).natAbs + 86399) / 86400) ++
            " days overdue") ∧
      (-86400 ≤ dtToSecs d - dtToSecs now → dtToSecs d - dtToSecs now < 0 →
        Reminder.timeUntilDueFormatted r now =
          toString (((dtToSecs d - dtToSecs now).natAbs + 3599) / 3600) ++
            " hours overdue") ∧
      (86400 ≤ dtToSecs d - dtToSecs now →
        Reminder.timeUntilDueFormatted r now =
          toString ((dtToSecs d - dtToSecs now).toNat / 86400) ++ " days remaining") ∧
      (0 ≤ dtToSecs d - dtToSecs now → dtToSecs d - dtToSecs now < 86400 →
        Reminder.timeUntilDueFormatted r now =
          toString ((dtToSecs d - dtToSecs now).toNat / 3600) ++ " hours remaining")) := by
  constructor
  · intro h
    simp [Reminder.timeUntilDueFormatted, Reminder.timeUntilDue, h]
  · intro d hd
    have base : Reminder.timeUntilDueFormatted r now =
        (let secs := dtToSecs d - dtToSecs now
         let totalDays : Int := secs / 86400
         if secs < 0 then
           if totalDays < -1 then toString totalDays.natAbs ++ " days overdue"
           else toString (secs / 3600).natAbs ++ " hours overdue"
         else if 1 ≤ totalDays then toString totalDays ++ " days remaining"
         else toString (secs / 3600) ++ " hours remaining") := by
      simp [Reminder.timeUntilDueFormatted, Reminder.timeUntilDue, hd]
    refine ⟨?_, ?_, ?_, ?_⟩
    · intro h
      rw [base]
      simp only [if_pos (show dtToSecs d - dtToSecs now < 0 by omega),
        if_pos (show (dtToSecs d - dtToSecs now) / 86400 < -1 by omega)]
      have e1 : ((dtToSecs d - dtToSecs now) / 86400).natAbs =
          ((dtToSecs d - dtToSecs now).natAbs + 86399) / 86400 := by omega
      rw [e1]
    · intro h1 h2
      rw [base]
      simp only [if_pos h2,
        if_neg (show ¬ ((dtToSecs d - dtToSecs now) / 86400 < -1) by omega)]
      have e1 : ((dtToSecs d - dtToSecs now) / 3600).natAbs =
          ((dtToSecs d - dtToSecs now).natAbs + 3599) / 3600 := by omega
      rw [e1]
    · intro h
      rw [base]
      simp only [if_neg (show ¬ (dtToSecs d - dtToSecs now < 0) by omega),
        if_pos (show 1 ≤ (dtToSecs d - dtToSecs now) / 86400 by omega)]
      have e1 : (dtToSecs d - dtToSecs now) / 86400 =
          (((dtToSecs d - dtToSecs now).toNat / 86400 : Nat) : Int) := by omega
      rw [e1, toString_intCast_nat]
    · intro h1 h2
      rw [base]
      simp only [if_neg (show ¬ (dtToSecs d - dtToSecs now < 0) by omega),
        if_neg (show ¬ (1 ≤ (dtToSecs d - dtToSecs now) / 86400) by omega)]
      have e1 : (dtToSecs d - dtToSecs now) / 3600 =
          (((dtToSecs d - dtToSecs now).toNat / 3600 : Nat) : Int) := by omega
      rw [e1, toString_intCast_nat]

/-- Witness for C8 as amended at the concrete 25-hours-overdue entity. -/
theorem c8_amended_witness :
    Reminder.timeUntilDueFormatted rDue dt1 =
      toString (((dtToSecs dt0 - dtToSecs dt1).natAbs + 86399) / 86400) ++
        " days overdue" :=
  ((c8_amended rDue dt1).2 dt0 rfl).1 (by decide)

theorem completeRec_parts {rec : ReminderRecord} (h : completeRecB rec = true) :
    (∃ i, rec.id = some i ∧ i ≠ "") ∧
    (∃ t, rec.title = some t ∧ trimStr t ≠ "") ∧
    (∃ ds, rec.description = some ds) ∧
    (∃ p, rec.priority = some p ∧ validPriorities.contains p = true) ∧
    (∃ c, rec.category = some c ∧ c ≠ "") ∧
    (∃ b, rec.isCompleted = some b) ∧
    (∃ ca, rec.createdAt = some ca) := by
  unfold completeRecB at h
  simp only [Bool.and_eq_true] at h
  obtain ⟨⟨⟨⟨⟨⟨h1, h2⟩, h3⟩, h4⟩, h5⟩, h6⟩, h7⟩ := h
  refine ⟨?_, ?_, ?_, ?_, ?_, ?_, ?_⟩
  · cases hx : rec.id with
    | none => rw [hx] at h1; cases h1
    | some i => rw [hx] at h1; exact ⟨i, rfl, by simpa using h1⟩
  · cases hx : rec.title with
    | none => rw [hx] at h2; cases h2
    | some t => rw [hx] at h2; exact ⟨t, rfl, by simpa using h2⟩
  · cases hx : rec.description with
    | none => rw [hx] at h3; cases h3
    | some ds => exact ⟨ds, rfl⟩
  · cases hx : rec.priority with
    | none => rw [hx] at h4; cases h4
    | some p => rw [hx] at h4; exact ⟨p, rfl, h4⟩
  · cases hx : rec.category with
    | none => rw [hx] at h5; cases h5
    | some c => rw [hx] at h5; exact ⟨c, rfl, by simpa using h5⟩
  · cases hx : rec.isCompleted with
    | none => rw [hx] at h6; cases h6
    | some b => exact ⟨b, rfl⟩
  · cases hx : rec.createdAt with
    | none => rw [hx] at h7; cases h7
    | some ca => exact ⟨ca, rfl⟩

theorem normalize_complete {rec : ReminderRecord} (hcom : completeRecB rec = true)
    (fid : String) (now : DateTime) : normalizeReminderData rec fid now = rec := by
  obtain ⟨⟨i, hid, hi⟩, ⟨t, ht, ht2⟩, ⟨ds, hds⟩, ⟨p, hp, hp2⟩, ⟨c, hc, hc2⟩, ⟨b, hb⟩,
    ⟨ca, hca⟩⟩ := completeRec_parts hcom
  have hp3 : p = "low" ∨ p = "medium" ∨ p = "high" := by simpa [validPriorities] using hp2
  have hpn : p ≠ "normal" := by rcases hp3 with rfl | rfl | rfl <;> decide
  have hp4 : p ∈ validPriorities := by simpa using hp2
  obtain ⟨f1, f2, f3, f4, f5, f6, f7, f8, f9⟩ := rec
  simp only at hid ht hds hp hc hb hca
  subst hid ht hds hp hc hb hca
  simp [normalizeReminderData, hi, hpn, hp4, hc2]

theorem fromJSON_complete {rec : ReminderRecord} (hcom : completeRecB rec = true) :
    ∃ r, Reminder.fromJSON rec = .ok r ∧ r.toJSON = rec := by
  obtain ⟨⟨i, hid, hi⟩, ⟨t, ht, ht2⟩, ⟨ds, hds⟩, ⟨p, hp, hp2⟩, ⟨c, hc, hc2⟩, ⟨b, hb⟩,
    ⟨ca, hca⟩⟩ := completeRec_parts hcom
  have hp3 : p ∈ validPriorities := by simpa using hp2
  obtain ⟨f1, f2, f3, f4, f5, f6, f7, f8, f9⟩ := rec
  simp only at hid ht hds hp hc hb hca
  subst hid ht hds hp hc hb hca
  refine ⟨⟨i, t, ds, f4, p, c, b, ca, f9⟩, ?_, rfl⟩
  simp [Reminder.fromJSON, ht2, hp3]

theorem decodeRecords_complete (gen : Nat → String) (now : DateTime) :
    ∀ (recs : List ReminderRecord) (i : Nat), (∀ rec ∈ recs, completeRecB rec = true) →
    (decodeRecords gen now i recs).map Reminder.toJSON = recs := by
  intro recs
  induction recs with
  | nil => intro i _; rfl
  | cons rec rest ih =>
    intro i h
    have hrec := h rec (by simp)
    have hnorm := normalize_complete hrec (gen i) now
    obtain ⟨r, hok, hjson⟩ := fromJSON_complete hrec
    simp [decodeRecords, hnorm, hok, hjson, ih (i + 1) (fun x hx => h x (by simp [hx]))]

theorem saveItemsToJSON_entities (rs : List Reminder) :
    saveItemsToJSON (rs.map SaveItem.entity) = some (rs.map Reminder.toJSON) := by
  induction rs with
  | nil => rfl
  | cons r rest ih => simp [saveItemsToJSON, ih]

theorem saveItemValid_entities (rs : List Reminder) :
    (rs.map SaveItem.entity).any (fun i => !saveItemValid i) = false := by
  induction rs with
  | nil => rfl
  | cons r rest ih => simp [saveItemValid, ih]

theorem save_entities {s : Store} (h : s.avail = true) (rs : List Reminder) :
    StorageLayer.save (rs.map SaveItem.entity) s =
      (true, { s with val := some (.envelope 1 (rs.map Reminder.toJSON)) }) := by
  unfold StorageLayer.save
  rw [if_neg (by simp [h]), if_neg (by simp [saveItemValid_entities]),
    saveItemsToJSON_entities]

/-- C6: loading a store holding a bare array of complete legacy entity
records deserializes every record, writes the collection back under the
version-1 envelope, and returns entities that serialize back to exactly the
original records, field for field. -/
theorem c6_legacy_load (s : Store) (recs : List ReminderRecord) (gen : Nat → String)
    (now : DateTime) (hA : s.avail = true) (hv : s.val = some (.bare recs))
    (hc : ∀ rec ∈ recs, completeRecB rec = true) :
    (StorageLayer.load s gen now).1.map Reminder.toJSON = recs ∧
    (StorageLayer.load s gen now).2.val = some (.envelope 1 recs) := by
  have hdec := decodeRecords_complete gen now recs 0 hc
  have hload : StorageLayer.load s gen now =
      (StorageLayer.migrateFromLegacy recs gen now,
       (StorageLayer.save ((StorageLayer.migrateFromLegacy recs gen now).map SaveItem.entity)
          s).2) := by
    unfold StorageLayer.load
    rw [if_neg (by simp [hA]), hv]
  rw [hload, save_entities hA]
  exact ⟨hdec, by simp [StorageLayer.migrateFromLegacy, hdec]⟩

/-- Witness for C6 at a concrete one-record legacy store. -/
theorem c6_legacy_load_witness :
    (StorageLayer.load storeC6 gen0 dt1).1.map Reminder.toJSON = [recC6] ∧
    (StorageLayer.load storeC6 gen0 dt1).2.val = some (.envelope 1 [recC6]) :=
  c6_legacy_load storeC6 [recC6] gen0 dt1 (by decide) (by decide) (by decide)

theorem mem_orderedInsertCmp (cmp : Reminder → Reminder → Int) (a : Reminder) :
    ∀ (l : List Reminder) (x : Reminder), x ∈ orderedInsertCmp cmp a l → x = a ∨ x ∈ l := by
  intro l
  induction l with
  | nil =>
    intro x h
    simp [orderedInsertCmp] at h
    exact .inl h
  | cons b bs ih =>
    intro x h
    by_cases hc : cmp a b ≤ 0
    · rw [orderedInsertCmp, if_pos hc] at h
      rcases List.mem_cons.mp h with rfl | h2
      · exact .inl rfl
      · exact .inr h2
    · rw [orderedInsertCmp, if_neg hc] at h
      rcases List.mem_cons.mp h with rfl | h2
      · exact .inr (by simp)
      · rcases ih x h2 with h3 | h3
        · exact .inl h3
        · exact .inr (by simp [h3])

theorem perm_orderedInsertCmp (cmp : Reminder → Reminder → Int) (a : Reminder) :
    ∀ (l : List Reminder), (orderedInsertCmp cmp a l).Perm (a :: l) := by
  intro l
  induction l with
  | nil => exact List.Perm.refl _
  | cons b bs ih =>
    by_cases hc : cmp a b ≤ 0
    · rw [orderedInsertCmp, if_pos hc]
    · rw [orderedInsertCmp, if_neg hc]
      exact (ih.cons b).trans (List.Perm.swap a b bs)

theorem perm_sortWithCmp (cmp : Reminder → Reminder → Int) :
    ∀ (l : List Reminder), (sortWithCmp cmp l).Perm l := by
  intro l
  induction l with
  | nil => exact List.Perm.refl _
  | cons a l ih => exact (perm_orderedInsertCmp cmp a _).trans (ih.cons a)

theorem pairwise_insert_priority (order : String) (a : Reminder) :
    ∀ (l : List Reminder),
      l.Pairwise (fun x y => priorityOrder y.priority ≤ priorityOrder x.priority) →
      (orderedInsertCmp (sortCmp .priority order) a l).Pairwise
        (fun x y => priorityOrder y.priority ≤ priorityOrder x.priority) := by
  intro l
  induction l with
  | nil => intro _; simp [orderedInsertCmp]
  | cons b bs ih =>
    intro hp
    have hcmp : sortCmp SortField.priority order a b =
        priorityOrder b.priority - priorityOrder a.priority := rfl
    by_cases hc : sortCmp SortField.priority order a b ≤ 0
    · rw [orderedInsertCmp, if_pos hc]
      rw [List.pairwise_cons]
      refine ⟨?_, hp⟩
      intro x hx
      rcases List.mem_cons.mp hx with rfl | hx2
      · rw [hcmp] at hc; omega
      · have hbx := (List.pairwise_cons.mp hp).1 x hx2
        rw [hcmp] at hc
        omega
    · rw [orderedInsertCmp, if_neg hc]
      rw [List.pairwise_cons]
      constructor
      · intro x hx
        rcases mem_orderedInsertCmp _ a bs x hx with rfl | hx2
        · rw [hcmp] at hc; omega
        · exact (List.pairwise_cons.mp hp).1 x hx2
      · exact ih (List.pairwise_cons.mp hp).2

theorem pairwise_sort_priority (order : String) :
    ∀ (l : List Reminder),
      (sortWithCmp (sortCmp .priority order) l).Pairwise
        (fun x y => priorityOrder y.priority ≤ priorityOrder x.priority) := by
  intro l
  induction l with
  | nil => exact List.Pairwise.nil
  | cons a l ih => exact pairwise_insert_priority order a _ ih

/-- C7: for any collection and either order argument, sortBy priority
returns a permutation of the collection in which the priority rank (high 3,
medium 2, low 1) never increases from one element to a later one, so every
high-priority entity precedes every medium one, which precedes every low
one; the manager state is not touched (sortBy sorts a copy and only returns
it). -/
theorem c7_sortBy_priority (m : ReminderManager) (order : String) :
    (m.sortBy .priority order).Pairwise
      (fun x y => priorityOrder y.priority ≤ priorityOrder x.priority) ∧
    (m.sortBy .priority order).Perm m.reminders :=
  ⟨pairwise_sort_priority order m.reminders,
   perm_sortWithCmp (sortCmp .priority order) m.reminders⟩

theorem startsWithB_iff : ∀ (hay n : List Char),
    startsWithB hay n = true ↔ ∃ t, n ++ t = hay := by
  intro hay
  induction hay with
  | nil =>
    intro n
    cases n with
    | nil => simp [startsWithB]
    | cons b bs => simp [startsWithB]
  | cons a as ih =>
    intro n
    cases n with
    | nil => simp [startsWithB]
    | cons b bs =>
      rw [show startsWithB (a :: as) (b :: bs) = (a == b && startsWithB as bs) from rfl]
      rw [Bool.and_eq_true]
      constructor
      · intro hb
        obtain ⟨t, ht⟩ := (ih bs).mp hb.2
        have hab : a = b := by simpa using hb.1
        exact ⟨t, by rw [List.cons_append, ht, hab]⟩
      · rintro ⟨t, ht⟩
        rw [List.cons_append] at ht
        injection ht with h1 h2
        exact ⟨by simp [h1], (ih bs).mpr ⟨t, h2⟩⟩

theorem containsSub_iff : ∀ (hay n : List Char),
    containsSub n hay = true ↔ ∃ p t, p ++ n ++ t = hay := by
  intro hay
  induction hay with
  | nil =>
    intro n
    rw [containsSub, startsWithB_iff]
    constructor
    · rintro ⟨t, ht⟩
      exact ⟨[], t, by simpa using ht⟩
    · rintro ⟨p, t, hpt⟩
      cases p with
      | nil => exact ⟨t, by simpa using hpt⟩
      | cons p0 ps => simp at hpt
  | cons c rest ih =>
    intro n
    rw [containsSub, Bool.or_eq_true, startsWithB_iff, ih]
    constructor
    · rintro (⟨t, ht⟩ | ⟨p, t, hpt⟩)
      · exact ⟨[], t, by simpa using ht⟩
      · exact ⟨c :: p, t, by simp [← hpt]⟩
    · rintro ⟨p, t, hpt⟩
      cases p with
      | nil => exact .inl ⟨t, by simpa using hpt⟩
      | cons p0 ps =>
        rw [List.cons_append, List.cons_append] at hpt
        injection hpt with h1 h2
        exact .inr ⟨ps, t, h2⟩

theorem toLowerStr_empty_iff (s : String) : toLowerStr s = "" ↔ s = "" := by
  constructor
  · intro h
    have h2 : (toLowerStr s).data = s.data.map Char.toLower := rfl
    rw [h] at h2
    have h3 : s.data = [] := by
      cases hd : s.data with
      | nil => rfl
      | cons x xs => rw [hd] at h2; simp at h2
    exact String.ext (by rw [h3])
  · intro h
    rw [h]
    rfl

/-- C9: search with the empty query returns the empty list, not the whole
collection; for a non-empty query it returns exactly the entities whose
lowercased title or description contains the lowercased query as a
substring; and two queries with the same lowercasing return the same
result. -/
theorem c9_search (m : ReminderManager) :
    (m.search "" = []) ∧
    (∀ q r, q ≠ "" →
      (r ∈ m.search q ↔ r ∈ m.reminders ∧
        ((∃ p t, p ++ (toLowerStr q).data ++ t = (toLowerStr r.title).data) ∨
         (∃ p t, p ++ (toLowerStr q).data ++ t = (toLowerStr r.description).data)))) ∧
    (∀ q1 q2, toLowerStr q1 = toLowerStr q2 → m.search q1 = m.search q2) := by
  refine ⟨rfl, ?_, ?_⟩
  · intro q r hq
    rw [ReminderManager.search, if_neg hq, List.mem_filter]
    simp only [strIncludes, Bool.or_eq_true, containsSub_iff]
  · intro q1 q2 h
    by_cases h1 : q1 = ""
    · have h2 : q2 = "" := by
        rw [← toLowerStr_empty_iff, ← h, toLowerStr_empty_iff]
        exact h1
      rw [h1, h2]
    · have h2 : q2 ≠ "" := by
        intro hx
        apply h1
        rw [← toLowerStr_empty_iff, h, toLowerStr_empty_iff]
        exact hx
      rw [ReminderManager.search, ReminderManager.search, if_neg h1, if_neg h2, h]

/-- Witness for C9: the uppercase and lowercase queries of the
specification example return the same result, the sample entity is found by
substring match, and the empty query finds nothing. -/
theorem c9_search_witness :
    ReminderManager.search mgrSearch "MEETING" = ReminderManager.search mgrSearch "meeting" ∧
    (rMeet ∈ ReminderManager.search mgrSearch "meeting" ↔ rMeet ∈ mgrSearch.reminders ∧
      ((∃ p t, p ++ (toLowerStr "meeting").data ++ t = (toLowerStr rMeet.title).data) ∨
       (∃ p t, p ++ (toLowerStr "meeting").data ++ t = (toLowerStr rMeet.description).data))) ∧
    ReminderManager.search mgrSearch "" = [] :=
  ⟨(c9_search mgrSearch).2.2 "MEETING" "meeting" (by decide),
   (c9_search mgrSearch).2.1 "meeting" rMeet (by decide),
   (c9_search mgrSearch).1⟩

theorem save_avail (m : ReminderManager) (s : Store) : (m.save s).avail = s.avail := by
  unfold ReminderManager.save
  split <;> rfl

theorem manager_save_synced {s : Store} (hA : s.avail = true) (m : ReminderManager) :
    SyncedBare m (m.save s) := by
  unfold SyncedBare ReminderManager.save
  rw [if_pos hA]

theorem add_ok_store {s : Store} {m : ReminderManager} {arg : AddArg} {fid : String}
    {now : DateTime} {r : Reminder} {m1 : ReminderManager} {s1 : Store}
    (h : ReminderManager.add m arg fid now s = .ok (r, m1, s1)) :
    m1 = { m with reminders := m.reminders ++ [r] } ∧ s1 = m1.save s := by
  unfold ReminderManager.add at h
  cases hc : addConstruct arg fid now with
  | error e => rw [hc] at h; simp at h
  | ok r0 =>
    rw [hc] at h
    simp only [Except.ok.injEq, Prod.mk.injEq] at h
    obtain ⟨e1, e2, e3⟩ := h
    subst e1
    exact ⟨e2.symm, by rw [← e2, ← e3]⟩

theorem add_synced {s : Store} (hA : s.avail = true) {m : ReminderManager} {arg : AddArg}
    {fid : String} {now : DateTime} {r : Reminder} {m1 : ReminderManager} {s1 : Store}
    (h : ReminderManager.add m arg fid now s = .ok (r, m1, s1)) :
    SyncedBare m1 s1 ∧ s1.avail = true := by
  obtain ⟨hm, hs⟩ := add_ok_store h
  subst hs
  exact ⟨manager_save_synced hA m1, by rw [save_avail]; exact hA⟩

theorem addMultiple_synced :
    ∀ (args : List AddArg) (a : AddArg) (m : ReminderManager) (gen : Nat → String)
      (now : DateTime) (s : Store) (i : Nat), s.avail = true →
      (ReminderManager.addMultiple m gen now s i (a :: args)).2.2.2 = none →
      SyncedBare (ReminderManager.addMultiple m gen now s i (a :: args)).1
        (ReminderManager.addMultiple m gen now s i (a :: args)).2.1 := by
  intro args
  induction args with
  | nil =>
    intro a m gen now s i hA hnone
    unfold ReminderManager.addMultiple at hnone ⊢
    cases hadd : m.add a (gen i) now s with
    | error e => rw [hadd] at hnone; simp at hnone
    | ok res =>
      obtain ⟨r, m1, s1⟩ := res
      exact (add_synced hA hadd).1
  | cons b rest ih =>
    intro a m gen now s i hA hnone
    unfold ReminderManager.addMultiple at hnone ⊢
    cases hadd : m.add a (gen i) now s with
    | error e => rw [hadd] at hnone; simp at hnone
    | ok res =>
      obtain ⟨r, m1, s1⟩ := res
      rw [hadd] at hnone
      have hA1 : s1.avail = true := (add_synced hA hadd).2
      exact ih b m1 gen now s1 (i + 1) hA1 hnone

/-- Counterexample to C1: adding one entity to a fresh manager stores, under
the storage key, the bare serialized array written directly with
localStorage.setItem, which is not the version-1 envelope the claim
requires. -/
theorem c1_counterexample :
    ReminderManager.add mgr0 (AddArg.entity r3base) "fresh" dt0 store0 =
      Except.ok (r3base, ⟨"reminders", [r3base]⟩,
        ⟨true, some (.bare [r3base.toJSON])⟩) ∧
    some (StoredVal.bare [r3base.toJSON]) ≠
      some (StoredVal.envelope 1 [r3base.toJSON]) := by
  exact ⟨by decide, by decide⟩

/-- C1 as amended: the manager does not delegate to the storage layer and
does not write the version-1 envelope; after every completed mutation (add,
a non-empty addMultiple, a successful remove, removeCompleted, clear, a
non-throwing update, an import whose argument parses) the value stored
under the key is the bare serialized array of exactly the in-memory
entities, provided the store is available. -/
theorem c1_amended (s : Store) (hA : s.avail = true) :
    (∀ m arg fid now r m1 s1,
      ReminderManager.add m arg fid now s = .ok (r, m1, s1) → SyncedBare m1 s1) ∧
    (∀ m gen now i a args,
      (ReminderManager.addMultiple m gen now s i (a :: args)).2.2.2 = none →
      SyncedBare (ReminderManager.addMultiple m gen now s i (a :: args)).1
        (ReminderManager.addMultiple m gen now s i (a :: args)).2.1) ∧
    (∀ m id r m1 s1,
      ReminderManager.remove m id s = (some r, m1, s1) → SyncedBare m1 s1) ∧
    (∀ m, SyncedBare (ReminderManager.removeCompleted m s).2.1
      (ReminderManager.removeCompleted m s).2.2) ∧
    (∀ m, SyncedBare (ReminderManager.clear m s).1 (ReminderManager.clear m s).2) ∧
    (∀ m id fs r m1 s1,
      ReminderManager.update m id fs s = (some r, m1, s1, none) → SyncedBare m1 s1) ∧
    (∀ m recs n m1 s1,
      ReminderManager.importJSON m (some recs) s = (n, m1, s1) →
      mapFromJSON recs ≠ none → SyncedBare m1 s1) := by
  refine ⟨?_, ?_, ?_, ?_, ?_, ?_, ?_⟩
  · intro m arg fid now r m1 s1 h
    exact (add_synced hA h).1
  · intro m gen now i a args h
    exact addMultiple_synced args a m gen now s i hA h
  · intro m id r m1 s1 h
    simp only [ReminderManager.remove] at h
    cases ho : (removeFirstById id m.reminders).1 with
    | none => rw [ho] at h; simp at h
    | some r2 =>
      rw [ho] at h
      simp only [Prod.mk.injEq] at h
      obtain ⟨-, hm, hs⟩ := h
      rw [← hm, ← hs]
      exact manager_save_synced hA _
  · intro m
    exact manager_save_synced hA _
  · intro m
    exact manager_save_synced hA _
  · intro m id fs r m1 s1 h
    simp only [ReminderManager.update] at h
    split at h
    · simp at h
    · split at h
      · simp at h
      · simp only [Prod.mk.injEq] at h
        obtain ⟨-, hm, hs, -⟩ := h
        rw [← hm, ← hs]
        exact manager_save_synced hA _
  · intro m recs n m1 s1 h hne
    simp only [ReminderManager.importJSON] at h
    cases hmap : mapFromJSON recs with
    | none => exact absurd hmap hne
    | some rs =>
      rw [hmap] at h
      simp only [Prod.mk.injEq] at h
      obtain ⟨-, hm, hs⟩ := h
      rw [← hm, ← hs]
      exact manager_save_synced hA _

/-- Witness for C1 as amended: concrete add, clear and import mutations on
an available store each leave the bare array of the current collection
stored. -/
theorem c1_amended_witness :
    SyncedBare ⟨"reminders", [r3base]⟩ ⟨true, some (.bare [r3base.toJSON])⟩ ∧
    SyncedBare (ReminderManager.clear mgr0 store0).1 (ReminderManager.clear mgr0 store0).2 ∧
    SyncedBare (ReminderManager.removeCompleted mgrSearch store0).2.1
      (ReminderManager.removeCompleted mgrSearch store0).2.2 := by
  refine ⟨?_, (c1_amended store0 rfl).2.2.2.2.1 mgr0,
    (c1_amended store0 rfl).2.2.2.1 mgrSearch⟩
  exact (c1_amended store0 rfl).1 mgr0 (AddArg.entity r3base) "fresh" dt0 r3base
    ⟨"reminders", [r3base]⟩ ⟨true, some (.bare [r3base.toJSON])⟩ (by decide)
